import Mathlib

/-!
Verification of the Abelian Go SDK core (`core` package): address hierarchy,
ring-group resolver and transaction assembler, as a shallow embedding.

Modelling conventions:
* Go `[]byte` / `Bytes` is `List Nat`; each entry is a byte (callers that need
  byte-range facts carry `< 256` hypotheses).
* Go `int64` / `int8` / `uint64` are `Int` / `Nat` with explicit two's-complement
  wraparound helpers where the source converts or overflows.
* A Go panic (nil dereference, out-of-range slice, `LOG.Panicf`) is the
  `GoResult.fatal` value; returned `error`s are `Except String`.
* The cryptographic backend (`github.com/abesuite/abec/sdkapi` and
  `abeutil` checksum helpers) and the SHA-256 digest used by the byte-buffer
  utility are external: they are fields of a `Backend` record that every
  embedded operation takes as a parameter.
* Go maps are association lists whose list order stands for the (arbitrary)
  iteration order; map values of pointer type are modelled as present,
  non-nil descriptors.
-/

/-- Interpret a `Nat` as a Go `byte` value reduced mod 256 and reinterpret it
as a signed `int8` (two's complement). -/
def int8OfByte (b : Nat) : Int :=
  if b % 256 < 128 then (b % 256 : Int) else (b % 256 : Int) - 256

/-- Go conversion `byte(x)` for a signed integer `x` (two's complement mod 256). -/
def byteOfInt (c : Int) : Nat :=
  (c % 256).toNat

/-- Go `byte` addition, wrapping mod 256. -/
def byteAdd (a b : Nat) : Nat :=
  (a + b) % 256

/-- Go `byte` subtraction, wrapping mod 256 (entries assumed `< 256`). -/
def byteSub (a b : Nat) : Nat :=
  (a % 256 + 256 - b % 256) % 256

/-- Go conversion `uint64(x)` of a signed 64-bit value: two's-complement
wraparound mod `2^64`. -/
def uint64OfInt (v : Int) : Nat :=
  (v % (2 ^ 64 : Int)).toNat

/-- Go conversion `int64(x)` of an unsigned 64-bit value (two's complement). -/
def int64OfUInt64 (v : Nat) : Int :=
  if v % 2 ^ 64 < 2 ^ 63 then (v % 2 ^ 64 : Int) else (v % 2 ^ 64 : Int) - 2 ^ 64

/-- Wrap an unbounded integer into the signed 64-bit range, as Go `int64`
arithmetic does on overflow. -/
def int64Wrap (v : Int) : Int :=
  (v + 2 ^ 63) % 2 ^ 64 - 2 ^ 63

/-- Go slice expression `xs[lo:hi]`: `none` models the runtime panic when the
bounds are out of range. -/
def goSlice (xs : List Nat) (lo hi : Nat) : Option (List Nat) :=
  if lo ≤ hi ∧ hi ≤ xs.length then some ((xs.drop lo).take (hi - lo)) else none

/-- Result of a Go computation that can panic: `fatal` is an unrecovered
runtime panic, `ok` a normal return. -/
inductive GoResult (α : Type) where
  | ok : α → GoResult α
  | fatal : GoResult α
deriving DecidableEq

/-- Lowercase hex digit for a value `< 16`, as `encoding/hex` produces. -/
def hexDigitChar (n : Nat) : Char :=
  if n < 10 then Char.ofNat (48 + n) else Char.ofNat (87 + n)

/-- Two lowercase hex digits of one byte. -/
def hexEncodeByte (b : Nat) : List Char :=
  [hexDigitChar (b % 256 / 16), hexDigitChar (b % 16)]

/-- Go `hex.EncodeToString` over a byte slice. -/
def hexEncode (bs : List Nat) : String :=
  ⟨bs.foldr (fun b acc => hexEncodeByte b ++ acc) []⟩

/-- Opaque outpoint produced by the backend constructor
`api.NewOutPointFromTxIdStr`. -/
structure OutPoint where
  txidStr : String
  index : Nat
deriving DecidableEq

/-- Opaque output request produced by `api.NewTxRequestOutputDesc`: the
destination crypto-address bytes paired with the unsigned 64-bit coin value. -/
structure TxRequestOutputDesc where
  cryptoAddressData : List Nat
  coinValue : Nat
deriving DecidableEq

/-- Opaque signing-key bundle produced by `api.NewCryptoKey`. -/
structure ApiCryptoKey where
  cryptoAddress : List Nat
  spendSecretKey : List Nat
  serialNoSecretKey : List Nat
  viewSecretKey : List Nat
deriving DecidableEq

/-- External collaborators of the core: the abec sdkapi cryptographic backend,
the abeutil checksum helpers, and the SHA-256 digest wrapped by the repo's
byte-buffer utility. Each operation the core delegates to is one field. -/
structure Backend where
  sha256 : List Nat → List Nat
  extractCoinAddressFromCryptoAddress : List Nat → Except String (List Nat)
  checkCryptoAddress : List Nat → Bool
  checkSum : List Nat → List Nat
  checkSumLength : Nat
  newOutPointFromTxIdStr : String → Nat → Except String OutPoint
  buildTransferTxRequestDescFromBlocks :
    List OutPoint → List (List Nat) → List TxRequestOutputDesc → Nat → List Nat →
      Except String (List Nat)
  createTransferTx : List Nat → List ApiCryptoKey → Except String (List Nat × List Nat)
  extractCoinValueFromSerializedTxOut : List Nat → List Nat → Except String Nat

/-- `core.DEFAULT_CHAIN_ID`. -/
def DEFAULT_CHAIN_ID : Int := 0

/-- `core.AddressType`. -/
inductive AddressType where
  | ANY_ADDRESS_TYPE
  | COIN_ADDRESS_TYPE
  | CRYPTO_ADDRESS_TYPE
  | ABEL_ADDRESS_TYPE
  | SHORT_ABEL_ADDRESS_TYPE
deriving DecidableEq

/-- `core.COIN_ADDRESS_LENGTH`. -/
def COIN_ADDRESS_LENGTH : Nat := 9504

/-- `core.CRYPTO_ADDRESS_LENGTH`. -/
def CRYPTO_ADDRESS_LENGTH : Nat := 10696

/-- `core.ABEL_ADDRESS_LENGTH`. -/
def ABEL_ADDRESS_LENGTH : Nat := 10729

/-- `core.SHORT_ABEL_ADDRESS_LENGTH`. -/
def SHORT_ABEL_ADDRESS_LENGTH : Nat := 66

/-- `core.Address`: raw data, type tag, fingerprint. The fingerprint field is a
Go `Bytes` slice that may be nil (`none`). -/
structure Address where
  data : List Nat
  addressType : AddressType
  fingerprint : Option (List Nat)
deriving DecidableEq

/-- `core.NewAddress(data, addressType, fingerprint...)`. The variadic
fingerprint parameter is a list; Go replaces an empty variadic list by nil and
then unconditionally indexes `fingerprint[0]`, which panics (`fatal`) when no
fingerprint argument was passed. -/
def NewAddress (data : Option (List Nat)) (addressType : AddressType)
    (fingerprint : List (Option (List Nat))) : GoResult Address :=
  let data := match data with
    | none => []
    | some d => d
  let fingerprint := if fingerprint.length = 0 then ([] : List (Option (List Nat))) else fingerprint
  match fingerprint with
  | [] => .fatal
  | fp :: _ => .ok { data := data, addressType := addressType, fingerprint := fp }

/-- `core.Address.Validate`: base non-empty checks on data and fingerprint.
`some msg` is the returned error, `none` success. -/
def Address.Validate (a : Address) : Option String :=
  if a.data.length = 0 then some "address data is empty"
  else
    match a.fingerprint with
    | none => some "address fingerprint is empty"
    | some fp => if fp.length = 0 then some "address fingerprint is empty" else none

/-- `core.CoinAddress`. -/
structure CoinAddress where
  toAddress : Address
deriving DecidableEq

/-- `core.NewCoinAddress(data)`: fingerprint is `data.Sha256()`. -/
def NewCoinAddress (be : Backend) (data : List Nat) : GoResult CoinAddress :=
  match NewAddress (some data) .COIN_ADDRESS_TYPE [some (be.sha256 data)] with
  | .fatal => .fatal
  | .ok base => .ok ⟨base⟩

/-- `core.CoinAddress.Validate`. -/
def CoinAddress.Validate (a : CoinAddress) : Option String :=
  match a.toAddress.Validate with
  | some e => some e
  | none =>
    if a.toAddress.data.length ≠ COIN_ADDRESS_LENGTH then
      some "coin address data length is not 9504"
    else none

/-- `core.CryptoAddress`. -/
structure CryptoAddress where
  toAddress : Address
deriving DecidableEq

/-- `core.CryptoAddress.GetCoinAddress`: extracts the embedded coin address via
the backend; a backend error hits `LOG.Panicf`, i.e. `fatal`. -/
def CryptoAddress.GetCoinAddress (be : Backend) (a : CryptoAddress) : GoResult CoinAddress :=
  match be.extractCoinAddressFromCryptoAddress a.toAddress.data with
  | .error _ => .fatal
  | .ok coinAddressData => NewCoinAddress be coinAddressData

/-- `core.NewCryptoAddress(data)`: constructs with a nil fingerprint argument,
then overwrites the fingerprint with that of the embedded coin address. -/
def NewCryptoAddress (be : Backend) (data : List Nat) : GoResult CryptoAddress :=
  match NewAddress (some data) .CRYPTO_ADDRESS_TYPE [none] with
  | .fatal => .fatal
  | .ok base =>
    match CryptoAddress.GetCoinAddress be ⟨base⟩ with
    | .fatal => .fatal
    | .ok coin => .ok ⟨{ base with fingerprint := coin.toAddress.fingerprint }⟩

/-- `core.CryptoAddress.Validate`. -/
def CryptoAddress.Validate (a : CryptoAddress) : Option String :=
  match a.toAddress.Validate with
  | some e => some e
  | none =>
    if a.toAddress.data.length ≠ CRYPTO_ADDRESS_LENGTH then
      some "crypto address data length is not 10696"
    else none

/-- `core.AbelAddress`. -/
structure AbelAddress where
  toAddress : Address
deriving DecidableEq

/-- `core.AbelAddress.GetChainID`: `int8(data[0])`. Callers guarantee the data
is non-empty (Go would panic on the index otherwise). -/
def AbelAddress.GetChainID (a : AbelAddress) : Int :=
  int8OfByte (a.toAddress.data.getD 0 0)

/-- `core.AbelAddress.GetCryptoAddress`:
`NewCryptoAddress(data[1 : len-CheckSumLength()])`; the slice panics (`fatal`)
when the data is shorter than `CheckSumLength()+1`. -/
def AbelAddress.GetCryptoAddress (be : Backend) (a : AbelAddress) : GoResult CryptoAddress :=
  match goSlice a.toAddress.data 1 (a.toAddress.data.length - be.checkSumLength) with
  | none => .fatal
  | some sub => NewCryptoAddress be sub

/-- `core.AbelAddress.GetChecksum`: the trailing `CheckSumLength()` bytes. -/
def AbelAddress.GetChecksum (be : Backend) (a : AbelAddress) : List Nat :=
  a.toAddress.data.drop (a.toAddress.data.length - be.checkSumLength)

/-- `core.NewAbelAddress(data)`: constructs with a nil fingerprint argument,
then overwrites the fingerprint with that of the embedded crypto address
(whose derivation may panic). -/
def NewAbelAddress (be : Backend) (data : List Nat) : GoResult AbelAddress :=
  match NewAddress (some data) .ABEL_ADDRESS_TYPE [none] with
  | .fatal => .fatal
  | .ok base =>
    match AbelAddress.GetCryptoAddress be ⟨base⟩ with
    | .fatal => .fatal
    | .ok crypto => .ok ⟨{ base with fingerprint := crypto.toAddress.fingerprint }⟩

/-- `core.AbelAddress.Validate`: base check, then length, chain-ID range 0–14,
backend cryptographic validity, checksum equality, in that order with
short-circuiting. The embedded `GetCryptoAddress` call may panic. -/
def AbelAddress.Validate (be : Backend) (a : AbelAddress) : GoResult (Option String) :=
  match a.toAddress.Validate with
  | some e => .ok (some e)
  | none =>
    if a.toAddress.data.length ≠ ABEL_ADDRESS_LENGTH then
      .ok (some "abel address data length is not 10729")
    else
      let chainID := a.GetChainID
      if chainID < 0 ∨ chainID > 14 then
        .ok (some "abel address chain id is not in range [0, 14]")
      else
        match a.GetCryptoAddress be with
        | .fatal => .fatal
        | .ok cryptoAddress =>
          if ¬ be.checkCryptoAddress cryptoAddress.toAddress.data then
            .ok (some "abel address crypto address is not cryptographically valid")
          else
            let checksum := a.GetChecksum be
            let calculatedChecksum :=
              be.checkSum (byteOfInt chainID :: cryptoAddress.toAddress.data)
            if checksum ≠ calculatedChecksum then
              .ok (some "abel address checksum is not valid")
            else .ok none

/-- `core.ShortAbelAddress`. -/
structure ShortAbelAddress where
  toAddress : Address
deriving DecidableEq

/-- `core.NewShortAbelAddress(data)`: constructs with a nil fingerprint
argument, then sets the fingerprint to `data[2:34]`, which panics (`fatal`)
when the data is shorter than 34 bytes. -/
def NewShortAbelAddress (data : List Nat) : GoResult ShortAbelAddress :=
  match NewAddress (some data) .SHORT_ABEL_ADDRESS_TYPE [none] with
  | .fatal => .fatal
  | .ok base =>
    match goSlice data 2 34 with
    | none => .fatal
    | some fp => .ok ⟨{ base with fingerprint := some fp }⟩

/-- `core.MakeShortAbelAddress(fingerprint, cryptoAddressHash, chainID...)`:
data is `0xab`, `0xe1 + byte(chainID)`, the fingerprint, then the hash. The
variadic chain ID defaults to `DEFAULT_CHAIN_ID`. -/
def MakeShortAbelAddress (fingerprint : List Nat) (cryptoAddressHash : List Nat)
    (chainID : List Int) : GoResult ShortAbelAddress :=
  let chainID := if chainID.length = 0 then [DEFAULT_CHAIN_ID] else chainID
  let saData :=
    (0xab : Nat) :: byteAdd 0xe1 (byteOfInt (chainID.getD 0 0)) ::
      (fingerprint ++ cryptoAddressHash)
  NewShortAbelAddress saData

/-- `core.ShortAbelAddress.GetChainID`: `int8(data[1] - 0xe1)` with Go byte
wraparound. Callers guarantee at least two data bytes. -/
def ShortAbelAddress.GetChainID (a : ShortAbelAddress) : Int :=
  int8OfByte (byteSub (a.toAddress.data.getD 1 0) 0xe1)

/-- `core.ShortAbelAddress.Validate`: base check, then length 66, magic first
byte `0xab`, chain-ID range 0–15, in that order with short-circuiting. -/
def ShortAbelAddress.Validate (a : ShortAbelAddress) : Option String :=
  match a.toAddress.Validate with
  | some e => some e
  | none =>
    if a.toAddress.data.length ≠ SHORT_ABEL_ADDRESS_LENGTH then
      some "short abel address data length is not 66"
    else if a.toAddress.data.getD 0 0 ≠ 0xab then
      some "short abel address data is not prefixed with 0xab"
    else
      let chainID := a.GetChainID
      if chainID < 0 ∨ chainID > 15 then
        some "short abel address chain id is not in range [0, 15]"
      else none

/-- `core.GetRingBlockHeights(height)`: the 3-aligned window computed with Go
`int64` truncated `%` and wrapping `int64` addition. -/
def GetRingBlockHeights (height : Int) : List Int :=
  let firstRingBlockHeight := int64Wrap (height - Int.tmod height 3)
  [firstRingBlockHeight, int64Wrap (firstRingBlockHeight + 1),
    int64Wrap (firstRingBlockHeight + 2)]

/-- `core.CryptoKey`. -/
structure CryptoKey where
  bytes : List Nat
deriving DecidableEq

/-- `core.CryptoKeysAndAddress`. -/
structure CryptoKeysAndAddress where
  SpendSecretKey : CryptoKey
  SerialNoSecretKey : CryptoKey
  ViewSecretKey : CryptoKey
  CryptoAddress : CryptoAddress
deriving DecidableEq

/-- `core.TxInDesc`. The owner pointer may be nil (`none`); it is stored, never
dereferenced, by the assembler. -/
structure TxInDesc where
  TxOutData : List Nat
  CoinValue : Int
  Owner : Option ShortAbelAddress
  Height : Int
  TxHash : List Nat
  TxOutIndex : Nat
  CoinSerialNumber : List Nat
deriving DecidableEq

/-- `core.TxOutDesc`. The recipient pointer may be nil (`none`); the assembler
dereferences it, so nil panics there. -/
structure TxOutDesc where
  AbelAddress : Option AbelAddress
  CoinValue : Int
deriving DecidableEq

/-- `core.TxBlockDesc`. -/
structure TxBlockDesc where
  BinData : List Nat
  Height : Int
deriving DecidableEq

/-- `core.TxDesc`. The ring-block map is an association list whose order is
the map's (arbitrary) iteration order; descriptors are modelled non-nil. -/
structure TxDesc where
  TxInDescs : List TxInDesc
  TxOutDescs : List TxOutDesc
  TxFee : Int
  TxMemo : List Nat
  TxRingBlockDescs : List (Int × TxBlockDesc)
deriving DecidableEq

/-- `core.UnsignedRawTx`. -/
structure UnsignedRawTx where
  data : List Nat
  Signers : List (Option ShortAbelAddress)
deriving DecidableEq

/-- `core.NewUnsignedRawTx(data, signers...)`: an absent variadic signers
argument defaults to the empty signer list. -/
def NewUnsignedRawTx (data : List Nat)
    (signers : List (List (Option ShortAbelAddress))) : UnsignedRawTx :=
  match signers with
  | [] => { data := data, Signers := [] }
  | s :: _ => { data := data, Signers := s }

/-- `core.SignedRawTx`. -/
structure SignedRawTx where
  data : List Nat
  Txid : List Nat
deriving DecidableEq

/-- `core.NewSignedRawTx(data, txid)`. -/
def NewSignedRawTx (data : List Nat) (txid : List Nat) : SignedRawTx :=
  { data := data, Txid := txid }

/-- Go map lookup `ringBlockDescs[h]` on the association-list model; a missing
key yields the zero value (unreachable in the embedded code, whose keys come
from the map itself). -/
def mapGet (m : List (Int × TxBlockDesc)) (h : Int) : TxBlockDesc :=
  match m.find? (fun p => p.1 == h) with
  | some p => p.2
  | none => { BinData := [], Height := 0 }

/-- `core.getSerializedBlocksForRingGroup`: collect the map keys (iteration
order = list order), sort them ascending, then read the descriptors' raw block
bytes in that key order. Go's `sort.Slice` with a strict `<` comparator is
specified only up to the comparator; on the distinct keys of a map it produces
the unique ascending arrangement, which `insertionSort` with `≤` also does. -/
def getSerializedBlocksForRingGroup (ringBlockDescs : List (Int × TxBlockDesc)) :
    List (List Nat) :=
  let heights := ringBlockDescs.map Prod.fst
  let sorted := List.insertionSort (· ≤ ·) heights
  sorted.map (fun h => (mapGet ringBlockDescs h).BinData)

/-- Loop of `core.GenerateUnsignedRawTx` preparing `outPointsToSpend`: one
backend outpoint per input, hex-encoding the transaction hash, with early
return on the first backend error. -/
def buildOutPoints (be : Backend) : List TxInDesc → Except String (List OutPoint)
  | [] => .ok []
  | d :: rest =>
    match be.newOutPointFromTxIdStr (hexEncode d.TxHash) d.TxOutIndex with
    | .error e => .error e
    | .ok p =>
      match buildOutPoints be rest with
      | .error e => .error e
      | .ok ps => .ok (p :: ps)

/-- Loop of `core.GenerateUnsignedRawTx` preparing `txRequestOutputDescs`: for
each output, the embedded crypto-address bytes of the recipient paired with
`uint64(CoinValue)`. Dereferencing a nil recipient or a panic inside
`GetCryptoAddress` is `fatal`. -/
def buildTxRequestOutputDescs (be : Backend) :
    List TxOutDesc → GoResult (List TxRequestOutputDesc)
  | [] => .ok []
  | d :: rest =>
    match d.AbelAddress with
    | none => .fatal
    | some addr =>
      match addr.GetCryptoAddress be with
      | .fatal => .fatal
      | .ok ca =>
        match buildTxRequestOutputDescs be rest with
        | .fatal => .fatal
        | .ok ds =>
          .ok ({ cryptoAddressData := ca.toAddress.data,
                 coinValue := uint64OfInt d.CoinValue } :: ds)

/-- `core.GenerateUnsignedRawTx(txDesc)`: outpoints, ring blocks, output
descriptors, backend request build, then the unsigned transaction wrapping the
request bytes with the input owners in input order. -/
def GenerateUnsignedRawTx (be : Backend) (txDesc : TxDesc) :
    GoResult (Except String UnsignedRawTx) :=
  match buildOutPoints be txDesc.TxInDescs with
  | .error e => .ok (.error e)
  | .ok outPointsToSpend =>
    let serializedBlocksForRingGroup := getSerializedBlocksForRingGroup txDesc.TxRingBlockDescs
    match buildTxRequestOutputDescs be txDesc.TxOutDescs with
    | .fatal => .fatal
    | .ok txRequestOutputDescs =>
      match be.buildTransferTxRequestDescFromBlocks outPointsToSpend
          serializedBlocksForRingGroup txRequestOutputDescs
          (uint64OfInt txDesc.TxFee) txDesc.TxMemo with
      | .error e => .ok (.error e)
      | .ok serializedTxRequestDesc =>
        let signers := txDesc.TxInDescs.map TxInDesc.Owner
        .ok (.ok (NewUnsignedRawTx serializedTxRequestDesc [signers]))

/-- Loop of `core.GenerateSignedRawTx` bundling each signer's key material into
a backend signing key, in signer-list order. -/
def mkApiCryptoKeys (signerKeys : List CryptoKeysAndAddress) : List ApiCryptoKey :=
  signerKeys.map (fun k =>
    { cryptoAddress := k.CryptoAddress.toAddress.data,
      spendSecretKey := k.SpendSecretKey.bytes,
      serialNoSecretKey := k.SerialNoSecretKey.bytes,
      viewSecretKey := k.ViewSecretKey.bytes })

/-- Reversal loop of `core.GenerateSignedRawTx`:
`reversedTxid[i] = txid[len(txid)-i-1]`. -/
def reverseBytes (txid : List Nat) : List Nat :=
  (List.range txid.length).map (fun i => txid.getD (txid.length - i - 1) 0)

/-- `core.GenerateSignedRawTx(unsignedRawTx, signerKeys)`: delegate to the
backend, then store the byte-reversed transaction ID. -/
def GenerateSignedRawTx (be : Backend) (unsignedRawTx : UnsignedRawTx)
    (signerKeys : List CryptoKeysAndAddress) : Except String SignedRawTx :=
  match be.createTransferTx unsignedRawTx.data (mkApiCryptoKeys signerKeys) with
  | .error e => .error e
  | .ok (serializedTxFull, txid) => .ok (NewSignedRawTx serializedTxFull (reverseBytes txid))

/-- Byte-buffer heap for the aliasing claim: a list of buffers addressed by
index. Distinct indices are distinct Go slices. -/
structure Mem where
  bufs : List (List Nat)
deriving DecidableEq

/-- Contents of buffer `r`. -/
def Mem.read (m : Mem) (r : Nat) : List Nat :=
  m.bufs.getD r []

/-- Overwrite buffer `r`. -/
def Mem.write (m : Mem) (r : Nat) (v : List Nat) : Mem :=
  ⟨m.bufs.set r v⟩

/-- Allocate a fresh buffer (Go `make`), returning its index. -/
def Mem.alloc (m : Mem) (v : List Nat) : Mem × Nat :=
  (⟨m.bufs ++ [v]⟩, m.bufs.length)

/-- `api.ExtractCoinValueFromSerializedTxOut` call as the core observes it:
the documented side effect clears the secret-key buffer it is handed, and the
value/error outcome is the backend's. -/
def apiExtractCoinValue (be : Backend) (m : Mem) (txOutData : List Nat)
    (keyRef : Nat) : Except String Nat × Mem :=
  let key := m.read keyRef
  (be.extractCoinValueFromSerializedTxOut txOutData key,
    m.write keyRef (List.replicate key.length 0))

/-- `core.DecodeValueFromTxOutData(txOutData, viewSecretKey)`: allocate a
fresh buffer, copy the caller's view secret key into it, hand the copy to the
backend, and return `-1` with the error or the value as `int64`. -/
def DecodeValueFromTxOutData (be : Backend) (m : Mem) (txOutData : List Nat)
    (viewSecretKeyRef : Nat) : Except String Int × Mem :=
  let src := m.read viewSecretKeyRef
  let alloc1 := m.alloc (List.replicate src.length 0)
  let m2 := alloc1.1.write alloc1.2 src
  let call := apiExtractCoinValue be m2 txOutData alloc1.2
  let result : Except String Int :=
    match call.1 with
    | .error e => .error e
    | .ok value => .ok (int64OfUInt64 value)
  (result, call.2)

/-- A concrete backend instantiation used to evaluate the embedded operations
on closed inputs: every delegation succeeds, and the SHA-256 stand-in returns
a fixed 32-byte digest. -/
def sampleBackend : Backend :=
  { sha256 := fun _ => List.replicate 32 0,
    extractCoinAddressFromCryptoAddress := fun _ => .ok [0],
    checkCryptoAddress := fun _ => true,
    checkSum := fun _ => [],
    checkSumLength := 4,
    newOutPointFromTxIdStr := fun s i => .ok ⟨s, i⟩,
    buildTransferTxRequestDescFromBlocks := fun _ _ _ _ _ => .ok [],
    createTransferTx := fun _ _ => .ok ([5], [1, 2, 3]),
    extractCoinValueFromSerializedTxOut := fun _ _ => .ok 0 }

/-- Like `sampleBackend`, but the transfer-request builder records the coin
values it receives as its result bytes, making the value passed across the
backend boundary observable. -/
def recordingBackend : Backend :=
  { sampleBackend with
    buildTransferTxRequestDescFromBlocks := fun _ _ outs _ _ =>
      .ok (outs.map TxRequestOutputDesc.coinValue) }

/-- A concrete short address value used as an input owner on closed inputs. -/
def sampleShortAddress : ShortAbelAddress :=
  ⟨{ data := [1], addressType := .SHORT_ABEL_ADDRESS_TYPE, fingerprint := none }⟩

/-- A concrete recipient Abel address whose data is long enough for the
embedded crypto-address slice (checksum length 4) to succeed. -/
def sampleAbelAddress : AbelAddress :=
  ⟨{ data := List.replicate 6 0, addressType := .ABEL_ADDRESS_TYPE, fingerprint := none }⟩

/-- A concrete transaction descriptor with one owned input and no outputs. -/
def sampleTxDesc : TxDesc :=
  { TxInDescs := [{ TxOutData := [], CoinValue := 0, Owner := some sampleShortAddress,
                    Height := 0, TxHash := [], TxOutIndex := 0, CoinSerialNumber := [] }],
    TxOutDescs := [], TxFee := 0, TxMemo := [], TxRingBlockDescs := [] }

/-! Theorems. -/

/-- `int64Wrap` is the identity on values already in the signed 64-bit range. -/
theorem int64Wrap_eq_self {v : Int} (h1 : -(2 ^ 63) ≤ v) (h2 : v < 2 ^ 63) :
    int64Wrap v = v := by
  unfold int64Wrap
  have e1 : (2 : Int) ^ 63 = 9223372036854775808 := by norm_num
  have e2 : (2 : Int) ^ 64 = 18446744073709551616 := by norm_num
  rw [e1, e2]
  rw [e1] at h1 h2
  omega

/-- Go's truncated `%` agrees with Euclidean `%` on nonnegative heights. -/
theorem tmod_three_eq {a : Int} (ha : 0 ≤ a) : Int.tmod a 3 = a % 3 :=
  Int.tmod_eq_emod ha (by norm_num)

/-- On nonnegative, non-overflowing heights the ring window is the aligned
triple. -/
theorem GetRingBlockHeights_eq_of_nonneg {K : Int} (k0 : 0 ≤ K)
    (k1 : K ≤ 2 ^ 63 - 3) :
    GetRingBlockHeights K = [K - K % 3, K - K % 3 + 1, K - K % 3 + 2] := by
  unfold GetRingBlockHeights
  rw [tmod_three_eq k0]
  have e1 : (2 : Int) ^ 63 = 9223372036854775808 := by norm_num
  rw [e1] at k1
  have hw0 : int64Wrap (K - K % 3) = K - K % 3 := by
    apply int64Wrap_eq_self <;> rw [e1] <;> omega
  have hw1 : int64Wrap (K - K % 3 + 1) = K - K % 3 + 1 := by
    apply int64Wrap_eq_self <;> rw [e1] <;> omega
  have hw2 : int64Wrap (K - K % 3 + 2) = K - K % 3 + 2 := by
    apply int64Wrap_eq_self <;> rw [e1] <;> omega
  simp only [hw0, hw1, hw2]

/-- C4 counterexample: at signed height `-4` the window `[-3, -2, -1]` does not
contain the queried height, and querying `-4 - (-4) % 3 + 1` (the claim's
second member, computed with Go's truncated `%`) returns a different window. -/
theorem GetRingBlockHeights_negative_cex :
    GetRingBlockHeights (-4) = [-3, -2, -1] ∧
    (-4 : Int) ∉ GetRingBlockHeights (-4) ∧
    GetRingBlockHeights ((-4) - Int.tmod (-4) 3 + 1) = [0, 1, 2] ∧
    GetRingBlockHeights ((-4) - Int.tmod (-4) 3 + 1) ≠ GetRingBlockHeights (-4) := by
  refine ⟨by decide, by decide, by decide, by decide⟩

/-- C4 (amended): for heights `H` with `0 ≤ H ≤ 2^63 - 3` (nonnegative, and
the window cannot overflow the signed 64-bit range), `GetRingBlockHeights H`
is three consecutive integers starting at the multiple of 3 containing `H`,
and each of the three member heights queries back the same window. Negative
heights violate the claim because Go's `%` truncates toward zero. -/
theorem GetRingBlockHeights_window :
    ∀ H : Int, 0 ≤ H → H ≤ 2 ^ 63 - 3 →
      GetRingBlockHeights H = [H - H % 3, H - H % 3 + 1, H - H % 3 + 2] ∧
      (H - H % 3) % 3 = 0 ∧
      H ∈ GetRingBlockHeights H ∧
      GetRingBlockHeights (H - H % 3) = GetRingBlockHeights H ∧
      GetRingBlockHeights (H - H % 3 + 1) = GetRingBlockHeights H ∧
      GetRingBlockHeights (H - H % 3 + 2) = GetRingBlockHeights H := by
  intro H h0 h1
  have e1 : (2 : Int) ^ 63 = 9223372036854775808 := by norm_num
  have hmain := GetRingBlockHeights_eq_of_nonneg h0 h1
  have hb : H ≤ 9223372036854775805 := by rw [e1] at h1; omega
  have hf0 : GetRingBlockHeights (H - H % 3) =
      [H - H % 3, H - H % 3 + 1, H - H % 3 + 2] := by
    rw [GetRingBlockHeights_eq_of_nonneg (by omega) (by rw [e1]; omega)]
    simp only [List.cons.injEq, and_true]
    omega
  have hf1 : GetRingBlockHeights (H - H % 3 + 1) =
      [H - H % 3, H - H % 3 + 1, H - H % 3 + 2] := by
    rw [GetRingBlockHeights_eq_of_nonneg (by omega) (by rw [e1]; omega)]
    simp only [List.cons.injEq, and_true]
    omega
  have hf2 : GetRingBlockHeights (H - H % 3 + 2) =
      [H - H % 3, H - H % 3 + 1, H - H % 3 + 2] := by
    rw [GetRingBlockHeights_eq_of_nonneg (by omega) (by rw [e1]; omega)]
    simp only [List.cons.injEq, and_true]
    omega
  refine ⟨hmain, by omega, ?_, by rw [hf0, hmain], by rw [hf1, hmain], by rw [hf2, hmain]⟩
  rw [hmain]
  simp only [List.mem_cons, List.not_mem_nil, or_false]
  omega

/-- C4 witness: the amended theorem applied at height 7. -/
theorem GetRingBlockHeights_window_witness :
    GetRingBlockHeights 7 = [7 - 7 % 3, 7 - 7 % 3 + 1, 7 - 7 % 3 + 2] ∧
    ((7 : Int) - 7 % 3) % 3 = 0 ∧
    (7 : Int) ∈ GetRingBlockHeights 7 ∧
    GetRingBlockHeights (7 - 7 % 3) = GetRingBlockHeights 7 ∧
    GetRingBlockHeights (7 - 7 % 3 + 1) = GetRingBlockHeights 7 ∧
    GetRingBlockHeights (7 - 7 % 3 + 2) = GetRingBlockHeights 7 :=
  GetRingBlockHeights_window 7 (by norm_num) (by norm_num)

/-- C10: `NewAddress` called with no fingerprint argument always panics: the
empty variadic list is replaced by nil and then indexed at position 0. With at
least one fingerprint argument — even an explicit nil — it returns normally,
storing the first argument. -/
theorem NewAddress_empty_fingerprint_fatal :
    (∀ (data : Option (List Nat)) (t : AddressType), NewAddress data t [] = .fatal) ∧
    (∀ (data : Option (List Nat)) (t : AddressType) (fp : Option (List Nat))
        (rest : List (Option (List Nat))),
      NewAddress data t (fp :: rest) =
        .ok { data := data.getD [], addressType := t, fingerprint := fp }) := by
  refine ⟨fun data t => rfl, fun data t fp rest => ?_⟩
  cases data <;> rfl

/-- C8: `MakeShortAbelAddress` on a 32-byte fingerprint, a 32-byte hash and a
chain ID in `[0, 15]` succeeds, and the result's `GetChainID` is the chain ID,
its first data byte is `0xab`, its data bytes `[2:34]` are exactly the
fingerprint, and its stored fingerprint is the fingerprint. -/
theorem MakeShortAbelAddress_round_trip :
    ∀ (fp hash : List Nat) (c : Int), fp.length = 32 → hash.length = 32 →
      0 ≤ c → c ≤ 15 →
      ∃ a : ShortAbelAddress,
        MakeShortAbelAddress fp hash [c] = .ok a ∧
        a.GetChainID = c ∧
        a.toAddress.data.getD 0 0 = 0xab ∧
        goSlice a.toAddress.data 2 34 = some fp ∧
        a.toAddress.fingerprint = some fp := by
  intro fp hash c hfp hhash h0 h15
  lift c to Nat using h0 with n hn
  have hn15 : n ≤ 15 := by exact_mod_cast h15
  have hbyte : byteOfInt (n : Int) = n := by
    unfold byteOfInt
    rw [Int.emod_eq_of_lt (by positivity) (by exact_mod_cast by omega)]
    exact Int.toNat_ofNat n
  have hadd : byteAdd 0xe1 n = 225 + n := by
    unfold byteAdd
    omega
  have hslice :
      goSlice (0xab :: (225 + n) :: (fp ++ hash)) 2 34 = some fp := by
    unfold goSlice
    rw [if_pos]
    · simp only [List.drop_succ_cons, List.drop_zero, Option.some.injEq]
      exact List.take_left' hfp
    · refine ⟨by omega, ?_⟩
      simp [List.length_append, hfp, hhash]
  refine ⟨⟨{ data := 0xab :: (225 + n) :: (fp ++ hash),
             addressType := .SHORT_ABEL_ADDRESS_TYPE,
             fingerprint := some fp }⟩, ?_, ?_, rfl, hslice, rfl⟩
  · show MakeShortAbelAddress fp hash [(n : Int)] = _
    simp [MakeShortAbelAddress, NewShortAbelAddress, NewAddress, hbyte, hadd, hslice]
  · show ShortAbelAddress.GetChainID _ = (n : Int)
    unfold ShortAbelAddress.GetChainID int8OfByte byteSub
    simp only [List.getD_cons_succ, List.getD_cons_zero]
    have : (225 + n) % 256 + 256 - 225 % 256 = n + 256 := by omega
    rw [this]
    have h2 : (n + 256) % 256 = n := by omega
    rw [h2, if_pos (by omega)]
    omega

/-- C8 witness: the round trip at a concrete fingerprint, hash and chain
ID 15. -/
theorem MakeShortAbelAddress_round_trip_witness :
    ∃ a : ShortAbelAddress,
      MakeShortAbelAddress (List.replicate 32 1) (List.replicate 32 2) [15] = .ok a ∧
      a.GetChainID = 15 ∧
      a.toAddress.data.getD 0 0 = 0xab ∧
      goSlice a.toAddress.data 2 34 = some (List.replicate 32 1) ∧
      a.toAddress.fingerprint = some (List.replicate 32 1) :=
  MakeShortAbelAddress_round_trip (List.replicate 32 1) (List.replicate 32 2) 15
    (by decide) (by decide) (by norm_num) (by norm_num)

/-- Decoded chain ID of a short address as a function of its second data
byte. -/
theorem shortChainID_spec {b : Nat} (hb : b < 256) :
    int8OfByte (byteSub b 0xe1) = if b < 97 then (b : Int) + 31 else (b : Int) - 225 := by
  unfold int8OfByte byteSub
  split <;> split <;> omega

/-- C7: after the base non-emptiness checks, `ShortAbelAddress.Validate`
checks length 66 first, the `0xab` magic byte second, and the chain-ID range
`[0, 15]` third, each failure yielding exactly its own error; a second data
byte in `[0xe1, 0xf0]` — chain IDs 0 through 15, 15 included — is accepted.
`AbelAddress.Validate`, by contrast, rejects chain ID 15 with its own
range error for `[0, 14]`: the asymmetry is in the code. -/
theorem short_vs_abel_chain_id_asymmetry :
    (∀ a : ShortAbelAddress, a.toAddress.Validate = none →
      a.toAddress.data.length ≠ SHORT_ABEL_ADDRESS_LENGTH →
      a.Validate = some "short abel address data length is not 66") ∧
    (∀ a : ShortAbelAddress, a.toAddress.Validate = none →
      a.toAddress.data.length = SHORT_ABEL_ADDRESS_LENGTH →
      a.toAddress.data.getD 0 0 ≠ 0xab →
      a.Validate = some "short abel address data is not prefixed with 0xab") ∧
    (∀ a : ShortAbelAddress, a.toAddress.Validate = none →
      a.toAddress.data.length = SHORT_ABEL_ADDRESS_LENGTH →
      a.toAddress.data.getD 0 0 = 0xab →
      a.toAddress.data.getD 1 0 < 256 →
      (a.toAddress.data.getD 1 0 < 0xe1 ∨ 0xf0 < a.toAddress.data.getD 1 0) →
      a.Validate = some "short abel address chain id is not in range [0, 15]") ∧
    (∀ a : ShortAbelAddress, a.toAddress.Validate = none →
      a.toAddress.data.length = SHORT_ABEL_ADDRESS_LENGTH →
      a.toAddress.data.getD 0 0 = 0xab →
      a.toAddress.data.getD 1 0 < 256 →
      0xe1 ≤ a.toAddress.data.getD 1 0 → a.toAddress.data.getD 1 0 ≤ 0xf0 →
      a.Validate = none ∧
      a.GetChainID = (a.toAddress.data.getD 1 0 : Int) - 0xe1) ∧
    (∀ (be : Backend) (a : AbelAddress), a.toAddress.Validate = none →
      a.toAddress.data.length = ABEL_ADDRESS_LENGTH →
      a.GetChainID = 15 →
      a.Validate be = .ok (some "abel address chain id is not in range [0, 14]")) := by
  refine ⟨?_, ?_, ?_, ?_, ?_⟩
  · intro a hbase hlen
    simp [ShortAbelAddress.Validate, hbase, hlen]
  · intro a hbase hlen hmagic
    simp only [List.getD_eq_getElem?_getD] at hmagic
    simp [ShortAbelAddress.Validate, hbase, hlen, hmagic]
  · intro a hbase hlen hmagic hb hout
    have hcid := shortChainID_spec hb
    simp only [ShortAbelAddress.Validate, hbase, hlen, hmagic, ShortAbelAddress.GetChainID,
      hcid, SHORT_ABEL_ADDRESS_LENGTH]
    rw [if_neg (by omega), if_neg (by omega), if_pos]
    split at hcid <;> omega
  · intro a hbase hlen hmagic hb hlo hhi
    have hcid := shortChainID_spec hb
    constructor
    · simp only [ShortAbelAddress.Validate, hbase, hlen, hmagic, ShortAbelAddress.GetChainID,
        hcid, SHORT_ABEL_ADDRESS_LENGTH]
      rw [if_neg (by omega), if_neg (by omega), if_neg]
      split at hcid <;> omega
    · simp only [ShortAbelAddress.GetChainID, hcid]
      rw [if_neg (by omega)]
  · intro be a hbase hlen hcid
    simp [AbelAddress.Validate, hbase, hlen, hcid]

set_option maxRecDepth 4000 in
/-- C7 witness: a concrete, otherwise-valid 66-byte short address with second
byte `0xf0` (chain ID 15) validates, and a concrete full Abel address of the
right length with chain-ID byte 15 is rejected with the `[0, 14]` range
error. -/
theorem short_vs_abel_chain_id_asymmetry_witness :
    (ShortAbelAddress.Validate
        ⟨{ data := 0xab :: 0xf0 :: List.replicate 64 0,
           addressType := .SHORT_ABEL_ADDRESS_TYPE,
           fingerprint := some (List.replicate 32 0) }⟩ = none) ∧
    (AbelAddress.Validate sampleBackend
        ⟨{ data := List.replicate 10729 15,
           addressType := .ABEL_ADDRESS_TYPE,
           fingerprint := some (List.replicate 32 0) }⟩ =
      .ok (some "abel address chain id is not in range [0, 14]")) := by
  constructor
  · exact (short_vs_abel_chain_id_asymmetry.2.2.2.1
      ⟨{ data := 0xab :: 0xf0 :: List.replicate 64 0,
         addressType := .SHORT_ABEL_ADDRESS_TYPE,
         fingerprint := some (List.replicate 32 0) }⟩
      (by decide) (by decide) (by decide) (by decide) (by decide) (by decide)).1
  · refine short_vs_abel_chain_id_asymmetry.2.2.2.2 _
      ⟨{ data := List.replicate 10729 15,
         addressType := .ABEL_ADDRESS_TYPE,
         fingerprint := some (List.replicate 32 0) }⟩
      ?_ ?_ ?_
    · simp only [Address.Validate, List.length_replicate]
      norm_num
    · simp only [List.length_replicate]
      rfl
    · simp only [AbelAddress.GetChainID, List.getD_eq_getElem?_getD,
        List.getElem?_replicate]
      norm_num [int8OfByte]

/-- C6 counterexample: constructing a `ShortAbelAddress` from non-empty
wrong-length data of 10 bytes does not yield an address whose `Validate`
reports the length violation — the constructor itself panics, because the
fingerprint slice `data[2:34]` is out of range. -/
theorem NewShortAbelAddress_wrong_length_fatal_cex :
    NewShortAbelAddress (List.replicate 10 1) = .fatal ∧
    List.replicate 10 1 ≠ ([] : List Nat) ∧
    (List.replicate 10 1).length ≠ SHORT_ABEL_ADDRESS_LENGTH := by
  refine ⟨by decide, by decide, by decide⟩

/-- C6 (amended): whenever construction from non-empty wrong-length data
itself succeeds (for `ShortAbelAddress` this needs at least 34 data bytes, for
`AbelAddress` at least `checkSumLength + 1`; shorter data panics in the
constructor) and the derived fingerprint is the backend's 32-byte digest,
`Validate` fails with exactly the length-violation error of the variant. -/
theorem wrong_length_validate_length_error :
    (∀ (be : Backend) (d : List Nat) (a : CoinAddress),
      (∀ x, (be.sha256 x).length = 32) →
      d ≠ [] → d.length ≠ COIN_ADDRESS_LENGTH →
      NewCoinAddress be d = .ok a →
      a.Validate = some "coin address data length is not 9504") ∧
    (∀ (be : Backend) (d : List Nat) (a : CryptoAddress),
      (∀ x, (be.sha256 x).length = 32) →
      d ≠ [] → d.length ≠ CRYPTO_ADDRESS_LENGTH →
      NewCryptoAddress be d = .ok a →
      a.Validate = some "crypto address data length is not 10696") ∧
    (∀ (be : Backend) (d : List Nat) (a : AbelAddress),
      (∀ x, (be.sha256 x).length = 32) →
      d ≠ [] → d.length ≠ ABEL_ADDRESS_LENGTH →
      NewAbelAddress be d = .ok a →
      a.Validate be = .ok (some "abel address data length is not 10729")) ∧
    (∀ (d : List Nat) (a : ShortAbelAddress),
      d ≠ [] → d.length ≠ SHORT_ABEL_ADDRESS_LENGTH →
      NewShortAbelAddress d = .ok a →
      a.Validate = some "short abel address data length is not 66") := by
  refine ⟨?_, ?_, ?_, ?_⟩
  · intro be d a hsha hne hlen h
    simp [NewCoinAddress, NewAddress] at h
    subst h
    simp [CoinAddress.Validate, Address.Validate, List.length_eq_zero, hne, hsha, hlen]
  · intro be d a hsha hne hlen h
    cases hE : be.extractCoinAddressFromCryptoAddress d with
    | error e =>
      simp [NewCryptoAddress, NewAddress, CryptoAddress.GetCoinAddress, hE] at h
    | ok cd =>
      simp [NewCryptoAddress, NewAddress, CryptoAddress.GetCoinAddress,
        NewCoinAddress, hE] at h
      subst h
      simp [CryptoAddress.Validate, Address.Validate, List.length_eq_zero, hne, hsha, hlen]
  · intro be d a hsha hne hlen h
    cases hS : goSlice d 1 (d.length - be.checkSumLength) with
    | none =>
      simp [NewAbelAddress, NewAddress, AbelAddress.GetCryptoAddress, hS] at h
    | some sub =>
      cases hE : be.extractCoinAddressFromCryptoAddress sub with
      | error e =>
        simp [NewAbelAddress, NewAddress, AbelAddress.GetCryptoAddress,
          NewCryptoAddress, CryptoAddress.GetCoinAddress, NewCoinAddress, hS, hE] at h
      | ok cd =>
        simp [NewAbelAddress, NewAddress, AbelAddress.GetCryptoAddress,
          NewCryptoAddress, CryptoAddress.GetCoinAddress, NewCoinAddress, hS, hE] at h
        subst h
        simp [AbelAddress.Validate, Address.Validate, List.length_eq_zero, hne, hsha, hlen]
  · intro d a hne hlen h
    cases hS : goSlice d 2 34 with
    | none =>
      simp [NewShortAbelAddress, NewAddress, hS] at h
    | some fp =>
      simp [NewShortAbelAddress, NewAddress, hS] at h
      have hfp : fp.length = 32 := by
        unfold goSlice at hS
        by_cases hc : 2 ≤ 34 ∧ 34 ≤ d.length
        · rw [if_pos hc] at hS
          cases hS
          simp only [List.length_take, List.length_drop]
          omega
        · rw [if_neg hc] at hS
          cases hS
      subst h
      simp [ShortAbelAddress.Validate, Address.Validate, List.length_eq_zero, hne, hfp, hlen]

/-- C6 witness: the amended theorem at concrete wrong-length data for each of
the four variants, over the sample backend. -/
theorem wrong_length_validate_length_error_witness :
    (CoinAddress.Validate
        ⟨{ data := [1, 2, 3], addressType := .COIN_ADDRESS_TYPE,
           fingerprint := some (List.replicate 32 0) }⟩ =
      some "coin address data length is not 9504") ∧
    (CryptoAddress.Validate
        ⟨{ data := List.replicate 10 3, addressType := .CRYPTO_ADDRESS_TYPE,
           fingerprint := some (List.replicate 32 0) }⟩ =
      some "crypto address data length is not 10696") ∧
    (AbelAddress.Validate sampleBackend
        ⟨{ data := List.replicate 10 2, addressType := .ABEL_ADDRESS_TYPE,
           fingerprint := some (List.replicate 32 0) }⟩ =
      .ok (some "abel address data length is not 10729")) ∧
    (ShortAbelAddress.Validate
        ⟨{ data := List.replicate 40 1, addressType := .SHORT_ABEL_ADDRESS_TYPE,
           fingerprint := some (List.replicate 32 1) }⟩ =
      some "short abel address data length is not 66") := by
  refine ⟨?_, ?_, ?_, ?_⟩
  · exact wrong_length_validate_length_error.1 sampleBackend [1, 2, 3] _
      (fun x => show (List.replicate 32 0).length = 32 by decide)
      (by decide) (by decide) (by decide)
  · exact wrong_length_validate_length_error.2.1 sampleBackend (List.replicate 10 3) _
      (fun x => show (List.replicate 32 0).length = 32 by decide)
      (by decide) (by decide) (by decide)
  · exact wrong_length_validate_length_error.2.2.1 sampleBackend (List.replicate 10 2) _
      (fun x => show (List.replicate 32 0).length = 32 by decide)
      (by decide) (by decide) (by decide)
  · exact wrong_length_validate_length_error.2.2.2 (List.replicate 40 1) _
      (by decide) (by decide) (by decide)

/-- The reversal loop of `GenerateSignedRawTx` is exactly `List.reverse`. -/
theorem reverseBytes_eq_reverse (l : List Nat) : reverseBytes l = l.reverse := by
  apply List.ext_getElem
  · simp [reverseBytes]
  · intro i h1 h2
    have hi : i < l.length := by simpa [reverseBytes] using h1
    simp only [reverseBytes, List.getElem_map, List.getElem_range]
    rw [List.getElem_reverse]
    rw [List.getD_eq_getElem?_getD, List.getElem?_eq_getElem (by omega)]
    simp only [Option.getD_some]
    congr 1
    omega

/-- C2: every successful `GenerateSignedRawTx` stores as `Txid` the exact
byte-reversal of the raw transaction ID returned by the backend signing
delegation — pointwise `Txid[i] = rawTxid[len-1-i]` — and the reversal is
applied exactly once (`Txid` is `List.reverse` of the raw ID). -/
theorem GenerateSignedRawTx_txid_reversed :
    ∀ (be : Backend) (u : UnsignedRawTx) (sk : List CryptoKeysAndAddress)
      (stx : SignedRawTx),
      GenerateSignedRawTx be u sk = .ok stx →
      ∃ full rawTxid,
        be.createTransferTx u.data (mkApiCryptoKeys sk) = .ok (full, rawTxid) ∧
        stx.data = full ∧
        stx.Txid = rawTxid.reverse ∧
        stx.Txid.length = rawTxid.length ∧
        ∀ i, i < rawTxid.length →
          stx.Txid.getD i 0 = rawTxid.getD (rawTxid.length - 1 - i) 0 := by
  intro be u sk stx h
  cases hC : be.createTransferTx u.data (mkApiCryptoKeys sk) with
  | error e => simp [GenerateSignedRawTx, hC] at h
  | ok p =>
    obtain ⟨full, rawTxid⟩ := p
    simp only [GenerateSignedRawTx, NewSignedRawTx, hC, GoResult.ok.injEq] at h
    have hx : stx = { data := full, Txid := reverseBytes rawTxid } := by
      cases h
      rfl
    subst hx
    refine ⟨full, rawTxid, rfl, rfl, ?_, ?_, ?_⟩
    · exact reverseBytes_eq_reverse rawTxid
    · simp [reverseBytes_eq_reverse]
    · intro i hi
      show (reverseBytes rawTxid).getD i 0 = _
      rw [reverseBytes_eq_reverse]
      rw [List.getD_eq_getElem?_getD, List.getD_eq_getElem?_getD]
      rw [List.getElem?_eq_getElem (by simpa using hi),
        List.getElem?_eq_getElem (by omega)]
      simp only [Option.getD_some]
      exact List.getElem_reverse _

/-- C2 witness: the theorem applied to a concrete signing run whose backend
returns raw ID `[1, 2, 3]`; the stored ID is `[3, 2, 1]`. -/
theorem GenerateSignedRawTx_txid_reversed_witness :
    ∃ full rawTxid,
      sampleBackend.createTransferTx (UnsignedRawTx.mk [] []).data
          (mkApiCryptoKeys []) = .ok (full, rawTxid) ∧
      (SignedRawTx.mk [5] [3, 2, 1]).data = full ∧
      (SignedRawTx.mk [5] [3, 2, 1]).Txid = rawTxid.reverse ∧
      (SignedRawTx.mk [5] [3, 2, 1]).Txid.length = rawTxid.length ∧
      ∀ i, i < rawTxid.length →
        (SignedRawTx.mk [5] [3, 2, 1]).Txid.getD i 0 =
          rawTxid.getD (rawTxid.length - 1 - i) 0 :=
  GenerateSignedRawTx_txid_reversed sampleBackend ⟨[], []⟩ [] ⟨[5], [3, 2, 1]⟩ rfl

/-- C3: a successful `GenerateUnsignedRawTx` on inputs owned, in order, by the
short addresses `as` returns `Signers` equal to exactly `as`, in the same
order. -/
theorem GenerateUnsignedRawTx_signers_order :
    ∀ (be : Backend) (txDesc : TxDesc) (owners : List ShortAbelAddress)
      (tx : UnsignedRawTx),
      GenerateUnsignedRawTx be txDesc = .ok (.ok tx) →
      txDesc.TxInDescs.map TxInDesc.Owner = owners.map some →
      tx.Signers = owners.map some := by
  intro be txDesc owners tx h hown
  cases hO : buildOutPoints be txDesc.TxInDescs with
  | error e => simp [GenerateUnsignedRawTx, hO] at h
  | ok ops =>
    cases hB : buildTxRequestOutputDescs be txDesc.TxOutDescs with
    | fatal => simp [GenerateUnsignedRawTx, hO, hB] at h
    | ok outs =>
      cases hR : be.buildTransferTxRequestDescFromBlocks ops
          (getSerializedBlocksForRingGroup txDesc.TxRingBlockDescs) outs
          (uint64OfInt txDesc.TxFee) txDesc.TxMemo with
      | error e => simp [GenerateUnsignedRawTx, hO, hB, hR] at h
      | ok s =>
        simp only [GenerateUnsignedRawTx, NewUnsignedRawTx, hO, hB, hR,
          GoResult.ok.injEq, Except.ok.injEq] at h
        have hx : tx = { data := s, Signers := txDesc.TxInDescs.map TxInDesc.Owner } := by
          cases h
          rfl
        subst hx
        simpa using hown

/-- C3 witness: the theorem applied to a concrete successful run with one
input owned by `sampleShortAddress`. -/
theorem GenerateUnsignedRawTx_signers_order_witness :
    (UnsignedRawTx.mk [] [some sampleShortAddress]).Signers =
      [sampleShortAddress].map some :=
  GenerateUnsignedRawTx_signers_order sampleBackend sampleTxDesc [sampleShortAddress]
    ⟨[], [some sampleShortAddress]⟩ rfl rfl

/-- C1 counterexample: with every backend delegation succeeding and a single
output of negative coin value `-1`, `GenerateUnsignedRawTx` does not fail with
any error — it succeeds, and the value delivered to the backend (recorded by
`recordingBackend` as its result bytes) is the silently wrapped
`2^64 - 1`. -/
theorem GenerateUnsignedRawTx_negative_value_cex :
    GenerateUnsignedRawTx recordingBackend
        { TxInDescs := [], TxOutDescs := [{ AbelAddress := some sampleAbelAddress,
                                            CoinValue := -1 }],
          TxFee := 0, TxMemo := [], TxRingBlockDescs := [] } =
      .ok (.ok { data := [18446744073709551615], Signers := [] }) := by
  rfl

/-- C1 (amended): `GenerateUnsignedRawTx` applies no range check to output
coin values. Whenever the output-descriptor loop completes, the value paired
with each destination is exactly `uint64(CoinValue)`, the two's-complement
wraparound of the signed value mod `2^64` — so a negative value is silently
converted and passed to the backend instead of failing; concretely, with the
recording backend a single-output request succeeds for every value `v`,
delivering the wrapped value. -/
theorem GenerateUnsignedRawTx_coinValue_wrap :
    (∀ (be : Backend) (descs : List TxOutDesc) (outs : List TxRequestOutputDesc),
      buildTxRequestOutputDescs be descs = .ok outs →
      outs.length = descs.length ∧
      ∀ i, i < descs.length →
        (outs.getD i ⟨[], 0⟩).coinValue =
          uint64OfInt ((descs.getD i ⟨none, 0⟩).CoinValue)) ∧
    (∀ v : Int,
      GenerateUnsignedRawTx recordingBackend
          { TxInDescs := [], TxOutDescs := [{ AbelAddress := some sampleAbelAddress,
                                              CoinValue := v }],
            TxFee := 0, TxMemo := [], TxRingBlockDescs := [] } =
        .ok (.ok { data := [uint64OfInt v], Signers := [] })) := by
  constructor
  · intro be descs
    induction descs with
    | nil =>
      intro outs h
      simp only [buildTxRequestOutputDescs, GoResult.ok.injEq] at h
      subst h
      exact ⟨rfl, fun i hi => absurd hi (by simp)⟩
    | cons d rest ih =>
      intro outs h
      cases hA : d.AbelAddress with
      | none => simp [buildTxRequestOutputDescs, hA] at h
      | some addr =>
        cases hG : addr.GetCryptoAddress be with
        | fatal => simp [buildTxRequestOutputDescs, hA, hG] at h
        | ok ca =>
          cases hRest : buildTxRequestOutputDescs be rest with
          | fatal => simp [buildTxRequestOutputDescs, hA, hG, hRest] at h
          | ok ds =>
            simp only [buildTxRequestOutputDescs, hA, hG, hRest, GoResult.ok.injEq] at h
            subst h
            obtain ⟨hlen, hvals⟩ := ih ds hRest
            refine ⟨by simpa using hlen, ?_⟩
            intro i hi
            cases i with
            | zero => rfl
            | succ j =>
              simp only [List.getD_cons_succ]
              exact hvals j (by simpa using hi)
  · intro v
    rfl

/-- C1 witness: the amended theorem's wrap characterization applied at a
concrete one-output descriptor list with value `-5`, and its success clause at
`v = -5`. -/
theorem GenerateUnsignedRawTx_coinValue_wrap_witness :
    (([({ cryptoAddressData := [0], coinValue := uint64OfInt (-5) } :
          TxRequestOutputDesc)]).length =
        [({ AbelAddress := some sampleAbelAddress, CoinValue := -5 } : TxOutDesc)].length ∧
      ∀ i, i < [({ AbelAddress := some sampleAbelAddress, CoinValue := -5 } :
          TxOutDesc)].length →
        (([({ cryptoAddressData := [0], coinValue := uint64OfInt (-5) } :
            TxRequestOutputDesc)]).getD i ⟨[], 0⟩).coinValue =
          uint64OfInt ((([({ AbelAddress := some sampleAbelAddress, CoinValue := -5 } :
            TxOutDesc)]).getD i ⟨none, 0⟩).CoinValue)) ∧
    GenerateUnsignedRawTx recordingBackend
        { TxInDescs := [], TxOutDescs := [{ AbelAddress := some sampleAbelAddress,
                                            CoinValue := -5 }],
          TxFee := 0, TxMemo := [], TxRingBlockDescs := [] } =
      .ok (.ok { data := [uint64OfInt (-5)], Signers := [] }) :=
  ⟨GenerateUnsignedRawTx_coinValue_wrap.1 sampleBackend
      [{ AbelAddress := some sampleAbelAddress, CoinValue := -5 }]
      [{ cryptoAddressData := [0], coinValue := uint64OfInt (-5) }] rfl,
    GenerateUnsignedRawTx_coinValue_wrap.2 (-5)⟩

/-- C9: `DecodeValueFromTxOutData` never modifies the caller's view-secret-key
buffer. The backend's buffer-clearing side effect lands on the private copy
allocated inside the call, so on the success path and on the error path alike
the caller's key bytes are unchanged. -/
theorem DecodeValueFromTxOutData_preserves_caller_buffer :
    ∀ (be : Backend) (m : Mem) (txOutData : List Nat) (r : Nat),
      r < m.bufs.length →
      ((DecodeValueFromTxOutData be m txOutData r).2).read r = m.read r := by
  intro be m txOutData r hr
  have hset : ∀ (l : List (List Nat)) (i : Nat) (v : List Nat), r ≠ i →
      Mem.read ⟨l.set i v⟩ r = Mem.read ⟨l⟩ r := by
    intro l i v hne
    unfold Mem.read
    simp only [List.getD_eq_getElem?_getD]
    rw [List.getElem?_set_ne (by omega)]
  have happ : ∀ w : List Nat, Mem.read ⟨m.bufs ++ [w]⟩ r = m.read r := by
    intro w
    show Mem.read ⟨m.bufs ++ [w]⟩ r = Mem.read ⟨m.bufs⟩ r
    unfold Mem.read
    simp only [List.getD_eq_getElem?_getD]
    rw [List.getElem?_append_left (by simpa)]
  simp only [DecodeValueFromTxOutData, apiExtractCoinValue, Mem.alloc, Mem.write]
  rw [hset _ _ _ (by omega), hset _ _ _ (by omega), happ]

/-- C9 witness: the theorem at a concrete one-buffer memory holding the view
secret key. -/
theorem DecodeValueFromTxOutData_preserves_caller_buffer_witness :
    ((DecodeValueFromTxOutData sampleBackend ⟨[[7, 8, 9]]⟩ [1] 0).2).read 0 =
      Mem.read ⟨[[7, 8, 9]]⟩ 0 :=
  DecodeValueFromTxOutData_preserves_caller_buffer sampleBackend ⟨[[7, 8, 9]]⟩ [1] 0
    (by decide)

/-- On a map whose keys are distinct, the Go lookup returns the value stored
with the key. -/
theorem mapGet_eq_of_mem :
    ∀ {m : List (Int × TxBlockDesc)} {h : Int} {d : TxBlockDesc},
      (m.map Prod.fst).Nodup → (h, d) ∈ m → mapGet m h = d := by
  intro m
  induction m with
  | nil => intro h d _ hmem; cases hmem
  | cons p rest ih =>
    intro h d hnd hmem
    obtain ⟨p1, p2⟩ := p
    simp only [List.map_cons, List.nodup_cons] at hnd
    by_cases hk : p1 = h
    · subst hk
      have hd : d = p2 := by
        cases hmem with
        | head => rfl
        | tail _ htail =>
          exact absurd (List.mem_map_of_mem Prod.fst htail) hnd.1
      subst hd
      simp [mapGet]
    · have htail : (h, d) ∈ rest := by
        cases hmem with
        | head => exact absurd rfl hk
        | tail _ htail => exact htail
      have hbeq : (p1 == h) = false := by simp [hk]
      have : mapGet ((p1, p2) :: rest) h = mapGet rest h := by
        simp [mapGet, List.find?_cons, hbeq]
      rw [this]
      exact ih hnd.2 htail

/-- C5: on any ring-block map with distinct height keys (a Go map guarantee),
`getSerializedBlocksForRingGroup` returns one element per map entry, equal to
the descriptors' raw block bytes read along the strictly ascending arrangement
of the height keys; and the output is independent of the map's iteration
order. -/
theorem getSerializedBlocksForRingGroup_sorted_ascending :
    ∀ m : List (Int × TxBlockDesc), (m.map Prod.fst).Nodup →
      ((getSerializedBlocksForRingGroup m).length = m.length ∧
        ∃ hs : List Int, hs.Perm (m.map Prod.fst) ∧ hs.Sorted (· < ·) ∧
          getSerializedBlocksForRingGroup m =
            hs.map (fun h => (mapGet m h).BinData)) ∧
      ∀ m' : List (Int × TxBlockDesc), m.Perm m' →
        getSerializedBlocksForRingGroup m = getSerializedBlocksForRingGroup m' := by
  intro m hnd
  have hperm : (List.insertionSort (· ≤ ·) (m.map Prod.fst)).Perm (m.map Prod.fst) :=
    List.perm_insertionSort (· ≤ ·) (m.map Prod.fst)
  have hsortedle : (List.insertionSort (· ≤ ·) (m.map Prod.fst)).Sorted (· ≤ ·) :=
    List.sorted_insertionSort (· ≤ ·) (m.map Prod.fst)
  have hndsort : (List.insertionSort (· ≤ ·) (m.map Prod.fst)).Nodup :=
    hperm.nodup_iff.mpr hnd
  refine ⟨⟨?_, List.insertionSort (· ≤ ·) (m.map Prod.fst), hperm,
      hsortedle.lt_of_le hndsort, rfl⟩, ?_⟩
  · show (List.map _ (List.insertionSort (· ≤ ·) (m.map Prod.fst))).length = m.length
    rw [List.length_map, hperm.length_eq, List.length_map]
  · intro m' hmm
    have hnd' : (m'.map Prod.fst).Nodup := ((hmm.map Prod.fst).nodup_iff).mp hnd
    have hkeys : (m.map Prod.fst).Perm (m'.map Prod.fst) := hmm.map Prod.fst
    have hsorteq : List.insertionSort (· ≤ ·) (m.map Prod.fst) =
        List.insertionSort (· ≤ ·) (m'.map Prod.fst) :=
      List.eq_of_perm_of_sorted
        ((List.perm_insertionSort _ _).trans
          (hkeys.trans (List.perm_insertionSort (· ≤ ·) (m'.map Prod.fst)).symm))
        (List.sorted_insertionSort _ _) (List.sorted_insertionSort _ _)
    show (List.insertionSort (· ≤ ·) (m.map Prod.fst)).map
        (fun h => (mapGet m h).BinData) =
      (List.insertionSort (· ≤ ·) (m'.map Prod.fst)).map
        (fun h => (mapGet m' h).BinData)
    rw [← hsorteq]
    apply List.map_congr_left
    intro h hmem
    have hkey : h ∈ m.map Prod.fst := hperm.subset hmem
    obtain ⟨p, hp, hph⟩ := List.mem_map.mp hkey
    obtain ⟨p1, p2⟩ := p
    cases hph
    rw [mapGet_eq_of_mem hnd hp, mapGet_eq_of_mem hnd' (hmm.subset hp)]

/-- C5 witness: the theorem at a concrete two-entry map stored in descending
key order; the output is ascending by height. -/
theorem getSerializedBlocksForRingGroup_sorted_ascending_witness :
    ((getSerializedBlocksForRingGroup [(5, ⟨[1], 5⟩), (2, ⟨[2], 2⟩)]).length =
        [(5, (⟨[1], 5⟩ : TxBlockDesc)), (2, ⟨[2], 2⟩)].length ∧
      ∃ hs : List Int,
        hs.Perm ([(5, (⟨[1], 5⟩ : TxBlockDesc)), (2, ⟨[2], 2⟩)].map Prod.fst) ∧
        hs.Sorted (· < ·) ∧
        getSerializedBlocksForRingGroup [(5, ⟨[1], 5⟩), (2, ⟨[2], 2⟩)] =
          hs.map (fun h =>
            (mapGet [(5, ⟨[1], 5⟩), (2, ⟨[2], 2⟩)] h).BinData)) ∧
    ∀ m' : List (Int × TxBlockDesc),
      List.Perm [(5, ⟨[1], 5⟩), (2, ⟨[2], 2⟩)] m' →
      getSerializedBlocksForRingGroup [(5, ⟨[1], 5⟩), (2, ⟨[2], 2⟩)] =
        getSerializedBlocksForRingGroup m' :=
  getSerializedBlocksForRingGroup_sorted_ascending
    [(5, ⟨[1], 5⟩), (2, ⟨[2], 2⟩)] (by decide)
